import Mathlib

/-!
Verification of the RxPY fork core: the bounded merge operator
(rx/core/operators/merge.py), the Qt thread-safe loop schedulers
(rx/scheduler/mainloop/qtthreadsafescheduler.py and
rx/concurrency/mainloopscheduler/qtthreadsafe.py) and the cancellation
token model built on their dispose callbacks.
-/

set_option autoImplicit false

namespace RxVerify

/-! ## Bounded merge state machine

Shallow embedding of the closure state of the bounded branch of
the merge operator in rx/core/operators/merge.py: the mutable cells
named active_count, queue, is_stopped, the membership of the
group composite (tracked as the list of currently subscribed
inner sources), a counter of downstream on_completed calls,
and two ghost traces recording the order in which the outer
source emitted inner sources and the order in which inner sources
were actually subscribed. -/

namespace BoundedMerge

structure MState (α : Type) where
  activeCount : Int
  queue : List α
  isStopped : Bool
  active : List α
  completedCalls : Nat
  outerEmits : List α
  admitted : List α
  deriving Repr, DecidableEq

/-- Initial closure state of subscribe: active_count = 0, empty queue,
is_stopped = False, empty group. -/
def initState {α : Type} : MState α :=
  { activeCount := 0, queue := [], isStopped := false, active := [],
    completedCalls := 0, outerEmits := [], admitted := [] }

/-- Outer on_next(inner_source): if active_count < max_concurrent then
increment active_count and subscribe the inner source, else append it
to the queue. -/
def onNext {α : Type} (max : Int) (s : α) (st : MState α) : MState α :=
  if st.activeCount < max then
    { st with activeCount := st.activeCount + 1,
              active := st.active ++ [s],
              admitted := st.admitted ++ [s],
              outerEmits := st.outerEmits ++ [s] }
  else
    { st with queue := st.queue ++ [s],
              outerEmits := st.outerEmits ++ [s] }

/-- Inner on_completed for inner source s: group.remove(subscription);
if the queue is non-empty, pop its head and subscribe it; else
decrement active_count and, if is_stopped and active_count == 0, call
downstream on_completed. -/
def innerOnCompleted {α : Type} [DecidableEq α] (s : α) (st : MState α) : MState α :=
  match st.queue with
  | q :: rest =>
      { st with active := st.active.erase s ++ [q],
                queue := rest,
                admitted := st.admitted ++ [q] }
  | [] =>
      if st.isStopped ∧ st.activeCount - 1 = 0 then
        { st with active := st.active.erase s,
                  activeCount := st.activeCount - 1,
                  completedCalls := st.completedCalls + 1 }
      else
        { st with active := st.active.erase s,
                  activeCount := st.activeCount - 1 }

/-- Outer on_completed: set is_stopped = True; if active_count == 0,
call downstream on_completed. -/
def outerOnCompleted {α : Type} (st : MState α) : MState α :=
  if st.activeCount = 0 then
    { st with isStopped := true, completedCalls := st.completedCalls + 1 }
  else
    { st with isStopped := true }

/-- One admit or complete event. The outer source emits and completes
only while it has not completed (Rx grammar), and an inner completion
can only come from a currently subscribed inner source. -/
inductive Step {α : Type} [DecidableEq α] (max : Int) : MState α → MState α → Prop
  | outerNext (s : α) (st : MState α) :
      ¬ st.isStopped → Step max st (onNext max s st)
  | innerComplete (s : α) (st : MState α) :
      s ∈ st.active → Step max st (innerOnCompleted s st)
  | outerComplete (st : MState α) :
      ¬ st.isStopped → Step max st (outerOnCompleted st)

/-- States reachable from the initial closure state by any
interleaving of admit and complete events. -/
inductive Reachable {α : Type} [DecidableEq α] (max : Int) : MState α → Prop
  | init : Reachable max initState
  | step {st st2 : MState α} :
      Reachable max st → Step max st st2 → Reachable max st2

/-- The inductive invariant of the bounded merge closure state. -/
def Inv {α : Type} (max : Int) (st : MState α) : Prop :=
  st.activeCount = st.active.length ∧
  st.activeCount ≤ max ∧
  (st.queue ≠ [] → st.activeCount = max) ∧
  st.outerEmits = st.admitted ++ st.queue ∧
  st.completedCalls = (if st.isStopped ∧ st.activeCount = 0 then 1 else 0)

theorem inv_init {α : Type} (max : Int) (hmax : 0 ≤ max) :
    Inv max (initState (α := α)) := by
  refine ⟨rfl, hmax, ?_, rfl, rfl⟩
  intro h
  simp [initState] at h

theorem inv_onNext {α : Type} (max : Int) (s : α) (st : MState α)
    (hst : ¬ st.isStopped) (h : Inv max st) : Inv max (onNext max s st) := by
  obtain ⟨h1, h2, h3, h4, h5⟩ := h
  have hstp : st.isStopped = false := by
    cases hb : st.isStopped
    · rfl
    · exact absurd hb hst
  unfold onNext Inv
  by_cases hc : st.activeCount < max
  · have hq : st.queue = [] := by
      by_contra hq
      have := h3 hq
      omega
    rw [if_pos hc]
    refine ⟨?_, ?_, ?_, ?_, ?_⟩
    · show st.activeCount + 1 = ((st.active ++ [s]).length : Int)
      rw [List.length_append, List.length_singleton]
      push_cast
      omega
    · show st.activeCount + 1 ≤ max
      omega
    · intro hcon
      exact absurd hq hcon
    · show st.outerEmits ++ [s] = (st.admitted ++ [s]) ++ st.queue
      rw [h4, hq]
      simp
    · show st.completedCalls =
        if st.isStopped = true ∧ st.activeCount + 1 = 0 then 1 else 0
      rw [h5, hstp]
      simp
  · rw [if_neg hc]
    refine ⟨h1, h2, ?_, ?_, ?_⟩
    · intro _
      show st.activeCount = max
      omega
    · show st.outerEmits ++ [s] = st.admitted ++ (st.queue ++ [s])
      rw [h4]
      simp
    · exact h5

theorem inv_innerOnCompleted {α : Type} [DecidableEq α] (max : Int) (s : α)
    (st : MState α) (hs : s ∈ st.active) (h : Inv max st) :
    Inv max (innerOnCompleted s st) := by
  obtain ⟨h1, h2, h3, h4, h5⟩ := h
  have hlen : (st.active.erase s).length = st.active.length - 1 :=
    List.length_erase_of_mem hs
  have hpos : 0 < st.active.length := List.length_pos.mpr (List.ne_nil_of_mem hs)
  have hac : 1 ≤ st.activeCount := by omega
  have h0 : ¬ (st.isStopped = true ∧ st.activeCount = 0) := by
    rintro ⟨_, habs⟩
    omega
  rcases hq : st.queue with _ | ⟨q, rest⟩
  · simp only [innerOnCompleted, hq]
    by_cases hdone : st.isStopped = true ∧ st.activeCount - 1 = 0
    · rw [if_pos hdone]
      refine ⟨?_, ?_, ?_, ?_, ?_⟩
      · show st.activeCount - 1 = ((st.active.erase s).length : Int)
        rw [hlen]
        omega
      · show st.activeCount - 1 ≤ max
        omega
      · intro hcon
        exact absurd rfl hcon
      · exact h4.trans (by rw [hq])
      · show st.completedCalls + 1 =
          if st.isStopped = true ∧ st.activeCount - 1 = 0 then 1 else 0
        rw [if_pos hdone, h5, if_neg h0]
    · rw [if_neg hdone]
      refine ⟨?_, ?_, ?_, ?_, ?_⟩
      · show st.activeCount - 1 = ((st.active.erase s).length : Int)
        rw [hlen]
        omega
      · show st.activeCount - 1 ≤ max
        omega
      · intro hcon
        exact absurd rfl hcon
      · exact h4.trans (by rw [hq])
      · show st.completedCalls =
          if st.isStopped = true ∧ st.activeCount - 1 = 0 then 1 else 0
        rw [if_neg hdone, h5, if_neg h0]
  · have hmax : st.activeCount = max := h3 (by rw [hq]; simp)
    simp only [innerOnCompleted, hq]
    refine ⟨?_, h2, ?_, ?_, ?_⟩
    · show st.activeCount = (((st.active.erase s) ++ [q]).length : Int)
      rw [List.length_append, hlen]
      simp only [List.length_cons, List.length_nil]
      omega
    · intro _
      exact hmax
    · show st.outerEmits = (st.admitted ++ [q]) ++ rest
      rw [h4, hq]
      simp
    · exact h5

theorem inv_outerOnCompleted {α : Type} (max : Int) (st : MState α)
    (hst : ¬ st.isStopped) (h : Inv max st) : Inv max (outerOnCompleted st) := by
  obtain ⟨h1, h2, h3, h4, h5⟩ := h
  have hstp : st.isStopped = false := by
    cases hb : st.isStopped
    · rfl
    · exact absurd hb hst
  have h0 : st.completedCalls = 0 := by
    rw [h5, hstp]
    simp
  unfold outerOnCompleted Inv
  by_cases hc : st.activeCount = 0
  · rw [if_pos hc]
    refine ⟨h1, h2, fun hcon => h3 hcon, h4, ?_⟩
    show st.completedCalls + 1 = if true = true ∧ st.activeCount = 0 then 1 else 0
    rw [h0, if_pos ⟨rfl, hc⟩]
  · rw [if_neg hc]
    refine ⟨h1, h2, fun hcon => h3 hcon, h4, ?_⟩
    show st.completedCalls = if true = true ∧ st.activeCount = 0 then 1 else 0
    have hneg : ¬ (true = true ∧ st.activeCount = 0) := by
      rintro ⟨_, hh⟩
      exact hc hh
    rw [h0, if_neg hneg]

theorem inv_step {α : Type} [DecidableEq α] {max : Int} {st st2 : MState α}
    (h : Inv max st) (hs : Step max st st2) : Inv max st2 := by
  cases hs with
  | outerNext s st hstop => exact inv_onNext max s st hstop h
  | innerComplete s st hmem => exact inv_innerOnCompleted max s st hmem h
  | outerComplete st hstop => exact inv_outerOnCompleted max st hstop h

theorem inv_reachable {α : Type} [DecidableEq α] {max : Int} (hmax : 0 ≤ max)
    {st : MState α} (h : Reachable max st) : Inv max st := by
  induction h with
  | init => exact inv_init max hmax
  | step _ hs ih => exact inv_step ih hs

/-- C1: in the bounded merge with a set max_concurrent, for every
interleaving of admission and inner-completion events the counter
active_count satisfies 0 <= active_count <= max_concurrent at every
reachable state. -/
theorem merge_activeCount_bounded {α : Type} [DecidableEq α] {max : Int}
    (hmax : 0 ≤ max) {st : MState α} (h : Reachable max st) :
    0 ≤ st.activeCount ∧ st.activeCount ≤ max := by
  obtain ⟨h1, h2, _, _, _⟩ := inv_reachable hmax h
  refine ⟨?_, h2⟩
  rw [h1]
  exact Int.natCast_nonneg _

/-- Witness for C1 at a concrete reachable state (one inner source
admitted under max_concurrent = 2). -/
theorem merge_activeCount_bounded_witness :
    (0:Int) ≤ 2 ∧
    (0 ≤ (onNext 2 5 (initState (α := Nat))).activeCount ∧
      (onNext 2 5 (initState (α := Nat))).activeCount ≤ 2) := by
  refine ⟨by decide, merge_activeCount_bounded (by decide) ?_⟩
  exact Reachable.step Reachable.init (Step.outerNext 5 initState (by decide))

/-- C10: with max_concurrent >= 1, every reachable state satisfies that
active_count = 0 implies the pending queue is empty, so the check
active_count == 0 at outer completion is equivalent to the full
condition is_stopped and active_count == 0 and empty queue. -/
theorem merge_zero_active_empty_queue {α : Type} [DecidableEq α] {max : Int}
    (hmax : 1 ≤ max) {st : MState α} (h : Reachable max st) :
    (st.activeCount = 0 → st.queue = []) ∧
    ((st.isStopped = true ∧ st.activeCount = 0) ↔
      (st.isStopped = true ∧ st.activeCount = 0 ∧ st.queue = [])) := by
  obtain ⟨h1, h2, h3, h4, h5⟩ := inv_reachable (by omega) h
  have key : st.activeCount = 0 → st.queue = [] := by
    intro hz
    by_contra hne
    have := h3 hne
    omega
  exact ⟨key,
    ⟨fun hc => ⟨hc.1, hc.2, key hc.2⟩, fun hc => ⟨hc.1, hc.2.1⟩⟩⟩

/-- Witness for C10 at a concrete reachable state with one running and
one queued inner source under max_concurrent = 1. -/
theorem merge_zero_active_empty_queue_witness :
    (1:Int) ≤ 1 ∧
    (((onNext 1 6 (onNext 1 5 (initState (α := Nat)))).activeCount = 0 →
        (onNext 1 6 (onNext 1 5 (initState (α := Nat)))).queue = []) ∧
      (((onNext 1 6 (onNext 1 5 (initState (α := Nat)))).isStopped = true ∧
          (onNext 1 6 (onNext 1 5 (initState (α := Nat)))).activeCount = 0) ↔
        ((onNext 1 6 (onNext 1 5 (initState (α := Nat)))).isStopped = true ∧
          (onNext 1 6 (onNext 1 5 (initState (α := Nat)))).activeCount = 0 ∧
          (onNext 1 6 (onNext 1 5 (initState (α := Nat)))).queue = []))) := by
  have hre : Reachable 1 (onNext 1 6 (onNext 1 5 (initState (α := Nat)))) :=
    Reachable.step
      (Reachable.step Reachable.init (Step.outerNext 5 initState (by decide)))
      (Step.outerNext 6 (onNext 1 5 initState) (by decide))
  exact ⟨by decide, merge_zero_active_empty_queue (by decide) hre⟩

/-- C3: in error-free runs with max_concurrent >= 1, downstream
completion is called exactly once, and exactly when is_stopped and
active_count == 0 and the pending queue is empty all hold. -/
theorem merge_completion_exactly_once {α : Type} [DecidableEq α] {max : Int}
    (hmax : 1 ≤ max) {st : MState α} (h : Reachable max st) :
    st.completedCalls ≤ 1 ∧
    (st.completedCalls = 1 ↔
      (st.isStopped = true ∧ st.activeCount = 0 ∧ st.queue = [])) := by
  obtain ⟨h1, h2, h3, h4, h5⟩ := inv_reachable (by omega) h
  have key : st.activeCount = 0 → st.queue = [] := by
    intro hz
    by_contra hne
    have := h3 hne
    omega
  rcases Classical.em (st.isStopped = true ∧ st.activeCount = 0) with hcond | hcond
  · rw [h5, if_pos hcond]
    exact ⟨le_refl 1,
      ⟨fun _ => ⟨hcond.1, hcond.2, key hcond.2⟩, fun _ => rfl⟩⟩
  · rw [h5, if_neg hcond]
    refine ⟨by omega, ?_, ?_⟩
    · intro h01
      exact absurd h01 (by omega)
    · rintro ⟨a, b, _⟩
      exact absurd ⟨a, b⟩ hcond

/-- Witness for C3: the outer source completes having produced zero
inner sources, and downstream completion fires exactly once. -/
theorem merge_completion_exactly_once_witness :
    (1:Int) ≤ 1 ∧
    ((outerOnCompleted (initState (α := Nat))).completedCalls ≤ 1 ∧
      ((outerOnCompleted (initState (α := Nat))).completedCalls = 1 ↔
        ((outerOnCompleted (initState (α := Nat))).isStopped = true ∧
          (outerOnCompleted (initState (α := Nat))).activeCount = 0 ∧
          (outerOnCompleted (initState (α := Nat))).queue = []))) := by
  have hre : Reachable 1 (outerOnCompleted (initState (α := Nat))) :=
    Reachable.step Reachable.init (Step.outerComplete initState (by decide))
  exact ⟨by decide, merge_completion_exactly_once (by decide) hre⟩

/-- C4: inner sources arriving while at capacity are appended to the
pending queue, an inner completion with a non-empty queue dequeues the
head and subscribes it with active_count unchanged, and consequently
every reachable state satisfies outerEmits = admitted ++ queue: queued
inner sources are admitted in strict FIFO submission order. -/
theorem merge_fifo_admission {α : Type} [DecidableEq α] {max : Int}
    (hmax : 0 ≤ max) {st : MState α} (h : Reachable max st) :
    st.outerEmits = st.admitted ++ st.queue ∧
    (∀ s : α, ¬ st.activeCount < max →
      onNext max s st =
        { st with queue := st.queue ++ [s],
                  outerEmits := st.outerEmits ++ [s] }) ∧
    (∀ (s q : α) (rest : List α), st.queue = q :: rest →
      (innerOnCompleted s st).admitted = st.admitted ++ [q] ∧
      (innerOnCompleted s st).queue = rest ∧
      (innerOnCompleted s st).activeCount = st.activeCount) := by
  obtain ⟨h1, h2, h3, h4, h5⟩ := inv_reachable hmax h
  refine ⟨h4, ?_, ?_⟩
  · intro s hc
    unfold onNext
    rw [if_neg hc]
  · intro s q rest hq
    refine ⟨?_, ?_, ?_⟩ <;> simp only [innerOnCompleted, hq]

/-- Sample reachable merge state for the C4 witness: max_concurrent = 1,
the outer emitted inner sources 10, 20, 30; 10 was admitted and 20, 30
were queued. -/
def fifoSample : MState Nat :=
  onNext 1 30 (onNext 1 20 (onNext 1 10 initState))

theorem fifoSample_reachable : Reachable 1 fifoSample :=
  Reachable.step
    (Reachable.step
      (Reachable.step Reachable.init (Step.outerNext 10 initState (by decide)))
      (Step.outerNext 20 (onNext 1 10 initState) (by decide)))
    (Step.outerNext 30 (onNext 1 20 (onNext 1 10 initState)) (by decide))

/-- Witness for C4: at the sample state, completing inner source 10
dequeues 20 (the FIFO head), leaves 30 queued and keeps active_count
unchanged. -/
theorem merge_fifo_admission_witness :
    (0:Int) ≤ 1 ∧
    fifoSample.outerEmits = fifoSample.admitted ++ fifoSample.queue ∧
    (innerOnCompleted 10 fifoSample).admitted = fifoSample.admitted ++ [20] ∧
    (innerOnCompleted 10 fifoSample).queue = [30] ∧
    (innerOnCompleted 10 fifoSample).activeCount = fifoSample.activeCount := by
  have hmain := merge_fifo_admission (by decide) fifoSample_reachable
  have h3 := hmain.2.2 10 20 [30] (by decide)
  exact ⟨by decide, hmain.1, h3.1, h3.2.1, h3.2.2⟩

end BoundedMerge

/-! ## Bounded merge with errors and the downstream observer gate

The same closure state as above, extended with inner next and error
events. In merge.py the inner callbacks wrap the downstream observer
(lines 54-55) and the outer subscription passes observer.on_error and
its on_completed closure directly; the downstream observer object
itself (rx/core ObserverBase and AutoDetachObserver) is not under src/,
so its terminal-event gate is modelled from the spec, which requires
that once terminated no further downstream emission occurs and that the
subscription group is released on termination. -/

namespace MergeErr

/-- Downstream emissions delivered to the merged-sequence consumer. -/
inductive DownEvent (ν ε : Type)
  | next (v : ν)
  | err (e : ε)
  | completed
  deriving Repr, DecidableEq

/-- Merge closure state plus the downstream observer gate flag, the
group-disposed flag and the trace of delivered downstream events (most
recent first). -/
structure Sys (α ν ε : Type) where
  activeCount : Int
  queue : List α
  isStopped : Bool
  active : List α
  downStopped : Bool
  groupDisposed : Bool
  trace : List (DownEvent ν ε)
  deriving Repr, DecidableEq

def initSys {α ν ε : Type} : Sys α ν ε :=
  { activeCount := 0, queue := [], isStopped := false, active := [],
    downStopped := false, groupDisposed := false, trace := [] }

/-- Modelled from the spec: the downstream observer wrapper (rx/core
ObserverBase and AutoDetachObserver, not under src/) delivers a next
value only while no terminal event has been forwarded. -/
def emitNext {α ν ε : Type} (v : ν) (sys : Sys α ν ε) : Sys α ν ε :=
  if sys.downStopped then sys
  else { sys with trace := DownEvent.next v :: sys.trace }

/-- Modelled from the spec: on the first error the downstream observer
wrapper forwards it once, marks itself stopped and disposes the merge
subscription group, which releases the outer subscription and every
currently-running inner subscription. -/
def emitErr {α ν ε : Type} (e : ε) (sys : Sys α ν ε) : Sys α ν ε :=
  if sys.downStopped then sys
  else { sys with downStopped := true, groupDisposed := true,
                  active := [], trace := DownEvent.err e :: sys.trace }

/-- Modelled from the spec: downstream completion is forwarded once,
after which the wrapper is stopped and the subscription group is
released. -/
def emitCompleted {α ν ε : Type} (sys : Sys α ν ε) : Sys α ν ε :=
  if sys.downStopped then sys
  else { sys with downStopped := true, groupDisposed := true,
                  active := [], trace := DownEvent.completed :: sys.trace }

/-- Outer on_next admission, as in merge.py lines 58-63. -/
def outerNextE {α ν ε : Type} (max : Int) (s : α) (sys : Sys α ν ε) : Sys α ν ε :=
  if sys.activeCount < max then
    { sys with activeCount := sys.activeCount + 1,
               active := sys.active ++ [s] }
  else
    { sys with queue := sys.queue ++ [s] }

/-- Inner on_completed, as in merge.py lines 44-52, with the final
downstream completion routed through the observer gate. -/
def innerCompletedE {α ν ε : Type} [DecidableEq α] (s : α) (sys : Sys α ν ε) :
    Sys α ν ε :=
  match sys.queue with
  | q :: rest =>
      { sys with active := sys.active.erase s ++ [q], queue := rest }
  | [] =>
      if sys.isStopped ∧ sys.activeCount - 1 = 0 then
        emitCompleted { sys with active := sys.active.erase s,
                                 activeCount := sys.activeCount - 1 }
      else
        { sys with active := sys.active.erase s,
                   activeCount := sys.activeCount - 1 }

/-- Outer on_completed, as in merge.py lines 65-68, with the downstream
completion routed through the observer gate. -/
def outerCompletedE {α ν ε : Type} (sys : Sys α ν ε) : Sys α ν ε :=
  if sys.activeCount = 0 then emitCompleted { sys with isStopped := true }
  else { sys with isStopped := true }

/-- Events of the merge subscription: outer next, inner next, inner
completion, outer completion, inner error, outer error. Every callback
is reachable only while the subscription group has not been disposed
(disposing the group releases the outer and all inner subscriptions),
outer events only while the outer has not terminated, and inner events
only from a currently subscribed inner source. -/
inductive EStep {α ν ε : Type} [DecidableEq α] (max : Int) :
    Sys α ν ε → Sys α ν ε → Prop
  | outerNext (s : α) (sys : Sys α ν ε) :
      ¬ sys.groupDisposed → ¬ sys.isStopped →
      EStep max sys (outerNextE max s sys)
  | innerNext (s : α) (v : ν) (sys : Sys α ν ε) :
      ¬ sys.groupDisposed → s ∈ sys.active →
      EStep max sys (emitNext v sys)
  | innerCompleted (s : α) (sys : Sys α ν ε) :
      ¬ sys.groupDisposed → s ∈ sys.active →
      EStep max sys (innerCompletedE s sys)
  | outerCompleted (sys : Sys α ν ε) :
      ¬ sys.groupDisposed → ¬ sys.isStopped →
      EStep max sys (outerCompletedE sys)
  | innerErr (s : α) (e : ε) (sys : Sys α ν ε) :
      ¬ sys.groupDisposed → s ∈ sys.active →
      EStep max sys (emitErr e sys)
  | outerErr (e : ε) (sys : Sys α ν ε) :
      ¬ sys.groupDisposed → ¬ sys.isStopped →
      EStep max sys (emitErr e sys)

inductive EReachable {α ν ε : Type} [DecidableEq α] (max : Int) :
    Sys α ν ε → Prop
  | init : EReachable max initSys
  | step {s1 s2 : Sys α ν ε} :
      EReachable max s1 → EStep max s1 s2 → EReachable max s2

def isErrEv {ν ε : Type} : DownEvent ν ε → Bool
  | DownEvent.err _ => true
  | _ => false

def isComplEv {ν ε : Type} : DownEvent ν ε → Bool
  | DownEvent.completed => true
  | _ => false

/-- The error-handling invariant: the group is disposed exactly when the
downstream observer is stopped; while open, the trace holds no terminal
event; once stopped, no inner subscription remains and the trace starts
with the single terminal event, terminal-free below it. -/
def ErrInv {α ν ε : Type} (sys : Sys α ν ε) : Prop :=
  sys.groupDisposed = sys.downStopped ∧
  (sys.downStopped = false →
    sys.trace.countP isErrEv = 0 ∧ sys.trace.countP isComplEv = 0) ∧
  (sys.downStopped = true →
    sys.active = [] ∧
    ((∃ e t, sys.trace = DownEvent.err e :: t ∧
        t.countP isErrEv = 0 ∧ t.countP isComplEv = 0) ∨
     (∃ t, sys.trace = DownEvent.completed :: t ∧
        t.countP isErrEv = 0 ∧ t.countP isComplEv = 0)))

theorem errInv_init {α ν ε : Type} : ErrInv (initSys (α := α) (ν := ν) (ε := ε)) := by
  refine ⟨rfl, fun _ => ⟨rfl, rfl⟩, fun h => ?_⟩
  simp [initSys] at h

theorem errInv_emitCompleted {α ν ε : Type} {sys : Sys α ν ε}
    (hds : sys.downStopped = false)
    (h2 : sys.trace.countP isErrEv = 0 ∧ sys.trace.countP isComplEv = 0) :
    ErrInv (emitCompleted sys) := by
  have hneg : ¬ (sys.downStopped = true) := by simp [hds]
  unfold emitCompleted
  rw [if_neg hneg]
  refine ⟨rfl, fun hfalse => absurd hfalse (by simp), fun _ => ⟨rfl, Or.inr ?_⟩⟩
  exact ⟨sys.trace, rfl, h2.1, h2.2⟩

theorem errInv_emitErr {α ν ε : Type} (e : ε) {sys : Sys α ν ε}
    (hds : sys.downStopped = false)
    (h2 : sys.trace.countP isErrEv = 0 ∧ sys.trace.countP isComplEv = 0) :
    ErrInv (emitErr e sys) := by
  have hneg : ¬ (sys.downStopped = true) := by simp [hds]
  unfold emitErr
  rw [if_neg hneg]
  refine ⟨rfl, fun hfalse => absurd hfalse (by simp), fun _ => ⟨rfl, Or.inl ?_⟩⟩
  exact ⟨e, sys.trace, rfl, h2.1, h2.2⟩

theorem errInv_step {α ν ε : Type} [DecidableEq α] {max : Int}
    {s1 s2 : Sys α ν ε} (h : ErrInv s1) (hs : EStep max s1 s2) : ErrInv s2 := by
  obtain ⟨h1, h2, h3⟩ := h
  have hds : s1.downStopped = false := by
    cases hs with
    | outerNext s sys hg hstop =>
      cases hb : s1.downStopped
      · rfl
      · rw [hb] at h1
        exact absurd h1 hg
    | innerNext s v sys hg hmem =>
      cases hb : s1.downStopped
      · rfl
      · rw [hb] at h1
        exact absurd h1 hg
    | innerCompleted s sys hg hmem =>
      cases hb : s1.downStopped
      · rfl
      · rw [hb] at h1
        exact absurd h1 hg
    | outerCompleted sys hg hstop =>
      cases hb : s1.downStopped
      · rfl
      · rw [hb] at h1
        exact absurd h1 hg
    | innerErr s e sys hg hmem =>
      cases hb : s1.downStopped
      · rfl
      · rw [hb] at h1
        exact absurd h1 hg
    | outerErr e sys hg hstop =>
      cases hb : s1.downStopped
      · rfl
      · rw [hb] at h1
        exact absurd h1 hg
  have hvac : ∀ P : Prop, s1.downStopped = true → P := by
    intro P htrue
    rw [hds] at htrue
    exact absurd htrue (by simp)
  cases hs with
  | outerNext s sys hg hstop =>
    unfold outerNextE
    by_cases hc : s1.activeCount < max
    · rw [if_pos hc]
      exact ⟨h1, h2, fun htrue => hvac _ htrue⟩
    · rw [if_neg hc]
      exact ⟨h1, h2, fun htrue => hvac _ htrue⟩
  | innerNext s v sys hg hmem =>
    have hneg : ¬ (s1.downStopped = true) := by simp [hds]
    unfold emitNext
    rw [if_neg hneg]
    obtain ⟨c1, c2⟩ := h2 hds
    refine ⟨h1, fun _ => ?_, fun htrue => absurd htrue hneg⟩
    constructor
    · show List.countP isErrEv (DownEvent.next v :: s1.trace) = 0
      rw [List.countP_cons]
      simp [isErrEv, c1]
    · show List.countP isComplEv (DownEvent.next v :: s1.trace) = 0
      rw [List.countP_cons]
      simp [isComplEv, c2]
  | innerCompleted s sys hg hmem =>
    rcases hq : s1.queue with _ | ⟨q, rest⟩
    · simp only [innerCompletedE, hq]
      by_cases hdone : s1.isStopped = true ∧ s1.activeCount - 1 = 0
      · rw [if_pos hdone]
        exact errInv_emitCompleted hds (h2 hds)
      · rw [if_neg hdone]
        exact ⟨h1, h2, fun htrue => hvac _ htrue⟩
    · simp only [innerCompletedE, hq]
      exact ⟨h1, h2, fun htrue => hvac _ htrue⟩
  | outerCompleted sys hg hstop =>
    unfold outerCompletedE
    by_cases hc : s1.activeCount = 0
    · rw [if_pos hc]
      exact errInv_emitCompleted hds (h2 hds)
    · rw [if_neg hc]
      exact ⟨h1, h2, fun htrue => hvac _ htrue⟩
  | innerErr s e sys hg hmem =>
    exact errInv_emitErr e hds (h2 hds)
  | outerErr e sys hg hstop =>
    exact errInv_emitErr e hds (h2 hds)

theorem errInv_reachable {α ν ε : Type} [DecidableEq α] {max : Int}
    {sys : Sys α ν ε} (h : EReachable max sys) : ErrInv sys := by
  induction h with
  | init => exact errInv_init
  | step _ hs ih => exact errInv_step ih hs

/-- C2: on the first error from the outer or any inner source the error
is forwarded downstream exactly once; afterwards the trace holds no
completion, every running inner subscription is released, the group is
disposed, and no further event of the merge subscription can occur. -/
theorem merge_error_short_circuit {α ν ε : Type} [DecidableEq α] {max : Int}
    {sys : Sys α ν ε} (h : EReachable max sys) :
    sys.trace.countP isErrEv ≤ 1 ∧
    (∀ (e : ε) (t : List (DownEvent ν ε)), sys.trace = DownEvent.err e :: t →
      sys.trace.countP isErrEv = 1 ∧
      sys.trace.countP isComplEv = 0 ∧
      sys.active = [] ∧
      sys.groupDisposed = true ∧
      ∀ sys2 : Sys α ν ε, ¬ EStep max sys sys2) := by
  obtain ⟨h1, h2, h3⟩ := errInv_reachable h
  constructor
  · cases hb : sys.downStopped
    · rw [(h2 hb).1]
      omega
    · obtain ⟨-, hdisj⟩ := h3 hb
      rcases hdisj with ⟨e, t, htr, hc1, hc2⟩ | ⟨t, htr, hc1, hc2⟩
      · rw [htr, List.countP_cons]
        simp [isErrEv, hc1]
      · rw [htr, List.countP_cons]
        simp [isErrEv, hc1]
  · intro e t htr
    have hdsT : sys.downStopped = true := by
      cases hb : sys.downStopped
      · exfalso
        have := (h2 hb).1
        rw [htr, List.countP_cons] at this
        simp [isErrEv] at this
      · rfl
    obtain ⟨hact, hdisj⟩ := h3 hdsT
    have hgd : sys.groupDisposed = true := h1.trans hdsT
    rcases hdisj with ⟨e2, t2, htr2, hc1, hc2⟩ | ⟨t2, htr2, hc1, hc2⟩
    · rw [htr] at htr2
      have he : DownEvent.err (ν := ν) e = DownEvent.err e2 ∧ t = t2 := by
        constructor
        · exact (List.cons.injEq _ _ _ _ ▸ htr2).1
        · exact (List.cons.injEq _ _ _ _ ▸ htr2).2
      refine ⟨?_, ?_, hact, hgd, ?_⟩
      · rw [htr, he.2, List.countP_cons]
        simp [isErrEv, hc1]
      · rw [htr, he.2, List.countP_cons]
        simp [isComplEv, hc2]
      · intro sys2 hstep
        cases hstep with
        | outerNext s sys hg hstop => exact hg hgd
        | innerNext s v sys hg hmem => exact hg hgd
        | innerCompleted s sys hg hmem => exact hg hgd
        | outerCompleted sys hg hstop => exact hg hgd
        | innerErr s e3 sys hg hmem => exact hg hgd
        | outerErr e3 sys hg hstop => exact hg hgd
    · rw [htr] at htr2
      exact absurd (List.cons.injEq _ _ _ _ ▸ htr2).1 (by simp)

/-- Concrete run for the C2 witness: under max_concurrent = 1 the outer
admits inner source 5, which then raises error 7. -/
def errSample : Sys Nat Nat Nat :=
  emitErr 7 (outerNextE 1 5 initSys)

theorem errSample_reachable : EReachable 1 errSample :=
  EReachable.step
    (EReachable.step EReachable.init
      (EStep.outerNext 5 initSys (by decide) (by decide)))
    (EStep.innerErr 5 7 (outerNextE 1 5 initSys) (by decide) (by decide))

/-- Witness for C2 at the concrete errored run. -/
theorem merge_error_short_circuit_witness :
    errSample.trace = DownEvent.err 7 :: [] ∧
    (errSample.trace.countP isErrEv = 1 ∧
      errSample.trace.countP isComplEv = 0 ∧
      errSample.active = [] ∧
      errSample.groupDisposed = true) := by
  have hmain := merge_error_short_circuit errSample_reachable
  have hx := hmain.2 7 [] (by decide)
  exact ⟨by decide, hx.1, hx.2.1, hx.2.2.1, hx.2.2.2.1⟩

end MergeErr

/-! ## Lock coverage of the downstream call sites in the bounded merge

Static transcription of the six callbacks installed by the bounded
branch of merge.py: which subscription they belong to, whether they can
call the downstream observer, and whether the source wraps them in
synchronized(source.lock). Inner callbacks (lines 43-56) are wrapped;
the outer subscription (lines 58-70) passes observer.on_error and its
own on_next and on_completed closures without any lock. -/

namespace MergeLocks

inductive Origin
  | innerCb
  | outerCb
  deriving Repr, DecidableEq

inductive CbKind
  | onNextCb
  | onErrorCb
  | onCompletedCb
  deriving Repr, DecidableEq

structure MergeCallback where
  origin : Origin
  kind : CbKind
  callsDownstream : Bool
  underSourceLock : Bool
  deriving Repr, DecidableEq

/-- The callbacks installed by the bounded merge subscribe, one entry
per callback, transcribed from merge.py lines 43-70. -/
def mergeCallbacks : List MergeCallback :=
  [ { origin := Origin.innerCb, kind := CbKind.onNextCb,
      callsDownstream := true, underSourceLock := true },
    { origin := Origin.innerCb, kind := CbKind.onErrorCb,
      callsDownstream := true, underSourceLock := true },
    { origin := Origin.innerCb, kind := CbKind.onCompletedCb,
      callsDownstream := true, underSourceLock := true },
    { origin := Origin.outerCb, kind := CbKind.onNextCb,
      callsDownstream := false, underSourceLock := false },
    { origin := Origin.outerCb, kind := CbKind.onErrorCb,
      callsDownstream := true, underSourceLock := false },
    { origin := Origin.outerCb, kind := CbKind.onCompletedCb,
      callsDownstream := true, underSourceLock := false } ]

/-- Counterexample to C9: the outer on_completed callback calls the
downstream observer yet is not wrapped in synchronized(source.lock),
and likewise observer.on_error is handed to the outer subscription
unwrapped, so not every downstream call runs under the shared lock. -/
theorem merge_lock_counterexample :
    (MergeCallback.mk Origin.outerCb CbKind.onCompletedCb true false) ∈
      mergeCallbacks ∧
    (MergeCallback.mk Origin.outerCb CbKind.onErrorCb true false) ∈
      mergeCallbacks ∧
    ¬ (∀ c ∈ mergeCallbacks,
        c.callsDownstream = true → c.underSourceLock = true) := by
  decide

/-- C9 (amended): downstream calls made from inner-sequence callbacks
run under the single shared source.lock, while the outer subscription
delivers its downstream error and completion calls without that lock. -/
theorem merge_lock_coverage :
    ∀ c ∈ mergeCallbacks,
      (c.origin = Origin.innerCb → c.underSourceLock = true) ∧
      (c.origin = Origin.outerCb → c.underSourceLock = false) := by
  decide

/-- Witness for the amended C9 at the inner on_next callback. -/
theorem merge_lock_coverage_witness :
    (MergeCallback.mk Origin.innerCb CbKind.onNextCb true true) ∈
      mergeCallbacks ∧
    (MergeCallback.mk Origin.innerCb CbKind.onNextCb true true).underSourceLock
      = true := by
  refine ⟨by decide, ?_⟩
  exact (merge_lock_coverage
    (MergeCallback.mk Origin.innerCb CbKind.onNextCb true true)
    (by decide)).1 (by decide)

end MergeLocks

/-! ## QtThreadSafeScheduler dispose flags

Closure state of QtThreadSafeScheduler.schedule and schedule_relative
(qtthreadsafescheduler.py): each captures a nonlocal cell is_disposed,
initially False; the loop thread runs invoke_action, which calls the
action only when the flag is unset; the returned token runs the dispose
callback. In schedule the dispose callback writes False into the flag,
in schedule_relative it writes True. -/

namespace QtSched

/-- Closure state of one schedule call: the is_disposed cell and a
count of action invocations performed by invoke_action. -/
structure ImmTask where
  isDisposed : Bool
  invocations : Nat
  deriving Repr, DecidableEq

def immInit : ImmTask := { isDisposed := false, invocations := 0 }

/-- The dispose callback of QtThreadSafeScheduler.schedule assigns
is_disposed = False (qtthreadsafescheduler.py lines 160-162). -/
def immDispose (t : ImmTask) : ImmTask := { t with isDisposed := false }

/-- invoke_action of QtThreadSafeScheduler.schedule: run the action
only when the disposed flag is unset (lines 156-158). -/
def immInvoke (t : ImmTask) : ImmTask :=
  if t.isDisposed then t else { t with invocations := t.invocations + 1 }

/-- Closure state of one schedule_relative call. -/
structure RelTask where
  isDisposed : Bool
  invocations : Nat
  deriving Repr, DecidableEq

def relInit : RelTask := { isDisposed := false, invocations := 0 }

/-- The dispose callback of QtThreadSafeScheduler.schedule_relative
assigns is_disposed = True (lines 195-197). -/
def relDispose (t : RelTask) : RelTask := { t with isDisposed := true }

/-- invoke_action of QtThreadSafeScheduler.schedule_relative: run the
action only when the disposed flag is unset (lines 191-193). -/
def relInvoke (t : RelTask) : RelTask :=
  if t.isDisposed then t else { t with invocations := t.invocations + 1 }

/-- C5: evaluation at the failing input. A release processed before the
loop thread runs invoke_action suppresses the invocation on the delayed
path, whose dispose writes True into the flag; but on the immediate
path the dispose callback writes False, so the action is invoked even
though the token was released first. -/
theorem qt_schedule_dispose_flag_bug :
    (immInvoke (immDispose immInit)).invocations = 1 ∧
    (relInvoke (relDispose relInit)).invocations = 0 := by
  decide

/-- Message posted by QtThreadSafeScheduler.schedule_relative: either
the forward to schedule (which posts SCHEDULE) or a SCHEDULE_RELATIVE
message carrying the clamped due time in milliseconds. -/
inductive Posted
  | schedNow
  | schedRelative (duetimeMs : Int)
  deriving Repr, DecidableEq

/-- Branch structure of QtThreadSafeScheduler.schedule_relative (lines
183-199): duetime_ms = max(0, duetime in seconds * 1000); if duetime ==
0, return self.schedule(action, state); else post SCHEDULE_RELATIVE
with duetime_ms. The relative time is modelled in whole seconds. -/
def scheduleRelativePost (duetime : Int) : Posted :=
  if duetime = 0 then Posted.schedNow
  else Posted.schedRelative (Max.max 0 (duetime * 1000))

/-- Counterexample to C6: a negative delay does not forward to the
immediate path; the code compares duetime == 0 only, so delay -1 posts
a SCHEDULE_RELATIVE timer message with due time clamped to 0 ms. -/
theorem scheduleRelative_neg_delay_counterexample :
    scheduleRelativePost (-1) ≠ Posted.schedNow ∧
    scheduleRelativePost (-1) = Posted.schedRelative 0 := by
  decide

/-- C6 (amended): schedule_relative forwards to schedule exactly when
the delay equals 0; any nonzero delay, negative included, posts a
SCHEDULE_RELATIVE message with due time max(0, delay times 1000). -/
theorem scheduleRelative_zero_fast_path :
    ∀ d : Int,
      (d = 0 → scheduleRelativePost d = Posted.schedNow) ∧
      (d ≠ 0 →
        scheduleRelativePost d = Posted.schedRelative (Max.max 0 (d * 1000))) := by
  intro d
  constructor
  · intro h
    rw [scheduleRelativePost, if_pos h]
  · intro h
    rw [scheduleRelativePost, if_neg h]

/-- Witness for the amended C6 at delay 0 and at delay 5. -/
theorem scheduleRelative_zero_fast_path_witness :
    ((0:Int) = 0 ∧ scheduleRelativePost 0 = Posted.schedNow) ∧
    ((5:Int) ≠ 0 ∧
      scheduleRelativePost 5 = Posted.schedRelative (Max.max 0 (5 * 1000))) := by
  exact ⟨⟨rfl, (scheduleRelative_zero_fast_path 0).1 rfl⟩,
    ⟨by decide, (scheduleRelative_zero_fast_path 5).2 (by decide)⟩⟩

end QtSched

/-! ## Periodic scheduling

The newer QtThreadSafeScheduler.schedule_periodic posts
SCHEDULE_PERIODIC and the RxHandler creates a repeating QTimer wired to
invoke_action, which advances the closure cell periodic_state through
the action; the older _QtScheduler.schedule_periodic in qtthreadsafe.py
instead calls action(scheduler, state) once at scheduling time and
posts SCHEDULE_LATER, whose handler creates a single-shot QTimer. -/

namespace Periodic

/-- State of the repeating timer for a SCHEDULE_PERIODIC message: the
closure cell periodic_state, the states produced by successive firings
and whether the timer runs. -/
structure PTask (σ : Type) where
  periodicState : σ
  fired : List σ
  timerRunning : Bool
  deriving Repr, DecidableEq

/-- Processing SCHEDULE_PERIODIC: the repeating timer is created and
started; no invocation happens at scheduling time. -/
def pStart {σ : Type} (s0 : σ) : PTask σ :=
  { periodicState := s0, fired := [], timerRunning := true }

/-- One timer period elapsing: while running, invoke_action performs
periodic_state = action(periodic_state); the repeating timer keeps
running. -/
def pTick {σ : Type} (action : σ → σ) (t : PTask σ) : PTask σ :=
  if t.timerRunning then
    { periodicState := action t.periodicState,
      fired := t.fired ++ [action t.periodicState],
      timerRunning := true }
  else t

/-- Processing the DISPOSE message posted by the dispose callback: the
handler stops the timer held in timer_ptr. -/
def pStop {σ : Type} (t : PTask σ) : PTask σ := { t with timerRunning := false }

/-- The repeating-timer variant satisfies the periodic contract: after
n periods the firings are exactly action applied 1..n times to the
initial state, the timer never self-terminates, and no firing happens
after the DISPOSE message is processed. -/
theorem pTick_running {σ : Type} (action : σ → σ) {t : PTask σ}
    (h : t.timerRunning = true) :
    pTick action t =
      { periodicState := action t.periodicState,
        fired := t.fired ++ [action t.periodicState],
        timerRunning := true } := by
  unfold pTick
  rw [h]
  simp

theorem pTick_iterate_fired {σ : Type} (action : σ → σ) (s0 : σ) (n : Nat) :
    ((pTick action)^[n] (pStart s0)).fired =
      (List.range n).map (fun k => action^[k + 1] s0) ∧
    ((pTick action)^[n] (pStart s0)).periodicState = action^[n] s0 ∧
    ((pTick action)^[n] (pStart s0)).timerRunning = true := by
  induction n with
  | zero => exact ⟨rfl, rfl, rfl⟩
  | succ n ih =>
    obtain ⟨ih1, ih2, ih3⟩ := ih
    rw [Function.iterate_succ_apply', pTick_running action ih3]
    refine ⟨?_, ?_, rfl⟩
    · show ((pTick action)^[n] (pStart s0)).fired ++
        [action ((pTick action)^[n] (pStart s0)).periodicState] = _
      rw [ih1, ih2, List.range_succ, List.map_append]
      simp [Function.iterate_succ_apply']
    · show action ((pTick action)^[n] (pStart s0)).periodicState = action^[n + 1] s0
      rw [ih2]
      exact (Function.iterate_succ_apply' action n s0).symm

theorem pTick_after_stop {σ : Type} (action : σ → σ) (t : PTask σ) :
    pTick action (pStop t) = pStop t := by
  unfold pTick pStop
  simp

/-- Closure state of the older _QtScheduler.schedule_periodic. -/
structure OldPTask (σ : Type) where
  periodicState : σ
  scheduleTimeCalls : Nat
  fired : List σ
  timerAlive : Bool
  deriving Repr, DecidableEq

/-- _QtScheduler.schedule_periodic at scheduling time: it calls
action(scheduler, state) once immediately (qtthreadsafe.py line 257)
and posts SCHEDULE_LATER, whose handler creates a single-shot QTimer
wired to invoke_action. -/
def oldStart {σ : Type} (s0 : σ) : OldPTask σ :=
  { periodicState := s0, scheduleTimeCalls := 1, fired := [], timerAlive := true }

/-- One timer period elapsing for the single-shot timer created by the
schedule_later handler: it fires at most once and then stops. -/
def oldTick {σ : Type} (action : σ → σ) (t : OldPTask σ) : OldPTask σ :=
  if t.timerAlive then
    { periodicState := action t.periodicState,
      scheduleTimeCalls := t.scheduleTimeCalls,
      fired := t.fired ++ [action t.periodicState],
      timerAlive := false }
  else t

/-- C7: evaluation at the failing input. The newer scheduler produces
s1, s2 after two periods with nothing run at scheduling time, but
_QtScheduler.schedule_periodic has fired only s1 after two periods (its
timer is single-shot because it posts SCHEDULE_LATER) and it ran the
action once extra at scheduling time. -/
theorem qt_schedule_periodic_single_shot_bug :
    (pTick Nat.succ (pTick Nat.succ (pStart 0))).fired = [1, 2] ∧
    (pStart (0:Nat)).fired = [] ∧
    (oldTick Nat.succ (oldTick Nat.succ (oldStart 0))).fired = [1] ∧
    (oldStart (0:Nat)).scheduleTimeCalls = 1 := by
  decide

end Periodic

/-! ## Cancellation token idempotence

The tokens returned by QtThreadSafeScheduler.schedule and
schedule_periodic are CompositeDisposable(disposable, Disposable(dispose))
where disposable is an unassigned SingleAssignmentDisposable and
dispose is the callback defined in the scheduler (post a DISPOSE
message, or write the is_disposed flag). The Disposable and
CompositeDisposable wrapper classes are not under src/, so their
first-call-only behaviour is modelled from the spec contract for
cancellation tokens. -/

namespace TokenModel

/-- Messages posted to the cross-thread bridge by dispose callbacks. -/
inductive BridgeMsg
  | disposeMsg
  deriving Repr, DecidableEq

/-- Observable world affected by the dispose callbacks defined in
qtthreadsafescheduler.py: the list of posted bridge messages and the
is_disposed closure cell of a schedule call. -/
structure SchedWorld where
  posted : List BridgeMsg
  isDisposedFlag : Bool
  deriving Repr, DecidableEq

/-- The dispose callback of schedule_periodic (lines 246-247): post a
DISPOSE message carrying timer_ptr. -/
def periodicDisposeEff (w : SchedWorld) : SchedWorld :=
  { w with posted := w.posted ++ [BridgeMsg.disposeMsg] }

/-- The dispose callback of schedule (lines 160-162): write False into
the is_disposed cell. -/
def immediateDisposeEff (w : SchedWorld) : SchedWorld :=
  { w with isDisposedFlag := false }

/-- Modelled from the spec: rx.disposable.Disposable (not under src/)
runs its action only on the first dispose call; the second and later
calls are no-ops. -/
structure SimpleDisp where
  isDisposed : Bool
  deriving Repr, DecidableEq

def dispDispose (eff : SchedWorld → SchedWorld) (d : SimpleDisp)
    (w : SchedWorld) : SimpleDisp × SchedWorld :=
  if d.isDisposed then (d, w) else ({ isDisposed := true }, eff w)

/-- Modelled from the spec: rx.disposable.CompositeDisposable (not
under src/) disposes each member exactly once on its first dispose
call and marks itself disposed; later calls are no-ops. Member m1 is
the unassigned SingleAssignmentDisposable (releasing it has no world
effect) and m2 is Disposable(dispose). -/
structure CompositeTok where
  compDisposed : Bool
  m1 : SimpleDisp
  m2 : SimpleDisp
  deriving Repr, DecidableEq

def compositeRelease (eff : SchedWorld → SchedWorld)
    (p : CompositeTok × SchedWorld) : CompositeTok × SchedWorld :=
  if p.1.compDisposed then p
  else
    let r1 := dispDispose id p.1.m1 p.2
    let r2 := dispDispose eff r1.1 r1.2
    ({ compDisposed := true, m1 := r1.1, m2 := r2.1 }, r2.2)

/-- The freshly returned token of a scheduling call, paired with the
initial world: nothing posted, is_disposed cell False. -/
def tokInit : CompositeTok × SchedWorld :=
  ({ compDisposed := false, m1 := { isDisposed := false },
     m2 := { isDisposed := false } },
   { posted := [], isDisposedFlag := false })

theorem compositeRelease_idem (eff : SchedWorld → SchedWorld)
    (p : CompositeTok × SchedWorld) :
    compositeRelease eff (compositeRelease eff p) = compositeRelease eff p := by
  unfold compositeRelease
  by_cases hc : p.1.compDisposed = true
  · rw [if_pos hc, if_pos hc]
  · rw [if_neg hc]
    simp

theorem compositeRelease_iterate (eff : SchedWorld → SchedWorld)
    (p : CompositeTok × SchedWorld) (n : Nat) (h : 1 ≤ n) :
    (compositeRelease eff)^[n] p = compositeRelease eff p := by
  induction n with
  | zero => exact absurd h (by omega)
  | succ n ih =>
    rcases Nat.eq_or_lt_of_le h with h1 | h1
    · rw [← h1]
      simp
    · have hn : 1 ≤ n := by omega
      rw [Function.iterate_succ_apply', ih hn, compositeRelease_idem]

/-- C8: releasing the token returned by a scheduling operation any
number N >= 1 of times leaves the token and the observable world
exactly as a single release does: only the first call has effect; shown
for the schedule_periodic token, whose dispose posts a DISPOSE message,
and for the schedule token, whose dispose writes the is_disposed cell. -/
theorem token_release_idempotent (n : Nat) (h : 1 ≤ n) :
    (compositeRelease periodicDisposeEff)^[n] tokInit =
      compositeRelease periodicDisposeEff tokInit ∧
    (compositeRelease immediateDisposeEff)^[n] tokInit =
      compositeRelease immediateDisposeEff tokInit := by
  exact ⟨compositeRelease_iterate periodicDisposeEff tokInit n h,
    compositeRelease_iterate immediateDisposeEff tokInit n h⟩

/-- Witness for C8 at three consecutive releases. -/
theorem token_release_idempotent_witness :
    1 ≤ 3 ∧
    ((compositeRelease periodicDisposeEff)^[3] tokInit =
        compositeRelease periodicDisposeEff tokInit ∧
      (compositeRelease immediateDisposeEff)^[3] tokInit =
        compositeRelease immediateDisposeEff tokInit) := by
  exact ⟨by decide, token_release_idempotent 3 (by decide)⟩

end TokenModel





end RxVerify
